import Mathlib

/-!
Shallow embedding of the `sevenzip` 7z-archive reader. The repository
sources available are the package test-suite (`part_000`), the direct
extraction example (`direct_extract.go`) and two listing tools; functions
taken from those files are embedded directly. The library core
(`OpenReader`, `File.Open`, `ListFilesWithOffsets`, the coder pipeline) is
not among the sources, so it is modelled from the specification; every
such definition carries a doc comment starting `Modelled from the spec:`.

Bytes are represented as `Nat` (values < 256 intended); byte streams as
`List Nat`.
-/

namespace SevenZip

/-- Slice of a byte stream: `len` bytes starting at offset `off`. -/
def slice (l : List Nat) (off len : Nat) : List Nat :=
  (l.drop off).take len

/-- Little-endian encoding of a 64-bit counter, as written by
`binary.Write(h, binary.LittleEndian, i)` for a `uint64` in `deriveAESKey`. -/
def le64 (n : Nat) : List Nat :=
  [n % 256, n / 2 ^ 8 % 256, n / 2 ^ 16 % 256, n / 2 ^ 24 % 256,
   n / 2 ^ 32 % 256, n / 2 ^ 40 % 256, n / 2 ^ 48 % 256, n / 2 ^ 56 % 256]

/-- Go pattern `dst := make([]byte, n); copy(dst, src)`: the first `n` bytes
of `src`, right-padded with zeroes to exactly `n` bytes. -/
def copyInto (n : Nat) (src : List Nat) : List Nat :=
  src.take n ++ List.replicate (n - src.length) 0

/-- One shift-xor round of the reflected CRC-32 computation
(polynomial `0xEDB88320`, as in Go `hash/crc32` IEEE). -/
def crc32Round (c : Nat) : Nat :=
  if c % 2 == 1 then Nat.xor (c / 2) 0xEDB88320 else c / 2

/-- Feed one byte into the CRC-32 state. -/
def crc32Byte (c b : Nat) : Nat :=
  (List.range 8).foldl (fun a _ => crc32Round a) (Nat.xor c (b % 256))

/-- CRC-32 (IEEE) of a byte sequence, as computed by Go's
`crc32.NewIEEE()` hash used throughout the test-suite. -/
def crc32 (bs : List Nat) : Nat :=
  Nat.xor (bs.foldl crc32Byte 0xFFFFFFFF) 0xFFFFFFFF

/-- UTF-16 code units of a unicode scalar value (surrogate pair above
`0x10000`). -/
def utf16CodeUnits (c : Nat) : List Nat :=
  if c < 0x10000 then [c]
  else [0xD800 + (c - 0x10000) / 0x400, 0xDC00 + (c - 0x10000) % 0x400]

/-- UTF-16LE (no BOM) encoding of a string, as produced by the
`unicode.UTF16(unicode.LittleEndian, unicode.IgnoreBOM)` encoder in
`deriveAESKey`. -/
def utf16le (s : String) : List Nat :=
  s.data.flatMap fun c =>
    (utf16CodeUnits c.toNat).flatMap fun u => [u % 256, u / 256]

/-! ### Section KDF: the 7z password-to-key derivation -/

/-- Byte stream fed to the single SHA-256 state across all KDF rounds:
the concatenation of `base ++ le64 counter` for `counter = 0 .. rounds - 1`,
where `base = salt ++ utf16le password`. -/
def kdfFeed (rounds : Nat) (base : List Nat) : List Nat :=
  (List.range rounds).flatMap fun i => base ++ le64 i

/-- Embedded from `direct_extract.go` `deriveAESKey`: derives the AES key
from a password. `hash` stands for the SHA-256 digest of everything written
into the incremental `sha256.New()` state (a parameter of the embedding,
assumed nothing beyond being a function of the fed bytes). When
`kdfIterations == 0` the key is `salt ++ utf16le password` copied into a
zeroed 32-byte buffer; otherwise it is the digest of `kdfFeed`, copied into
that buffer (`sha256.Size = 32`). -/
def deriveAESKey (hash : List Nat → List Nat) (kdfIterations : Nat)
    (salt : List Nat) (password : String) : List Nat :=
  let b := salt ++ utf16le password
  if kdfIterations == 0 then copyInto 32 b
  else copyInto 32 (hash (kdfFeed kdfIterations b))

/-- Modelled from the spec: §4.5 password-to-key derivation, stated exactly
as written. If `numCyclesPower == 0x3F` the 32-byte key is the first 32
bytes of `salt ++ pwBytes` right-padded with zeroes; otherwise it is the
SHA-256 digest of `salt ++ pwBytes ++ counter_le64` over
`counter = 0 .. 2 ^ numCyclesPower - 1`, all rounds fed into one hash
state, truncated to 32 bytes. -/
def sevenZipKDF (hash : List Nat → List Nat) (numCyclesPower : Nat)
    (salt pwBytes : List Nat) : List Nat :=
  if numCyclesPower == 0x3F then copyInto 32 (salt ++ pwBytes)
  else (hash (kdfFeed (2 ^ numCyclesPower) (salt ++ pwBytes))).take 32

/-- Modelled from the spec: the `KDFIterations` carrier exposed by the
(absent) library `FileInfo` builder. The glossary states iterations
`= 2 ^ numCyclesPower`; the `numCyclesPower == 0x3F` no-hash marker is
carried as `0`, which is the encoding `deriveAESKey` documents in its own
`KDFIterations == 0` special case ("no hashing, use data directly"). -/
def kdfIterationsOf (numCyclesPower : Nat) : Nat :=
  if numCyclesPower == 0x3F then 0 else 2 ^ numCyclesPower

/-! ### Section AESProps: the 7zAES coder property bytes -/

/-- Parsed 7zAES coder properties. -/
structure AESProps where
  numCyclesPower : Nat
  salt : List Nat
  iv : List Nat
  deriving Repr, DecidableEq

/-- Modelled from the spec: §4.5 — `numCyclesPower` is the lower 6 bits of
the first property byte; the IV length (0..16) and salt length (0..16) are
encoded in the upper two bits and the following byte, followed by
`saltLen` bytes of salt and `ivLen` bytes of IV. When both upper bits are
clear there is no salt and no IV. Rejects inputs whose lead bytes are not
bytes or that are too short. -/
def parseAESProps : List Nat → Option AESProps
  | [] => none
  | b0 :: rest =>
    if 256 ≤ b0 then none
    else if b0 / 64 == 0 then some ⟨b0 % 64, [], []⟩
    else
      match rest with
      | [] => none
      | b1 :: rest2 =>
        if 256 ≤ b1 then none
        else
          let saltLen := b0 / 128 + b1 / 16
          let ivLen := b0 / 64 % 2 + b1 % 16
          if rest2.length < saltLen + ivLen then none
          else some ⟨b0 % 64, rest2.take saltLen, (rest2.drop saltLen).take ivLen⟩

/-! ### Section Model: archive, folders, coder chains, reading -/

/-- Abstract cryptographic primitives called by the pipeline: the SHA-256
digest of a fed byte sequence, and AES-256-CBC decryption
`aesdec key iv ciphertext`. They are carried as data so the embedding
stays executable while assuming nothing about the ciphers themselves. -/
structure Prim where
  hash : List Nat → List Nat
  aesdec : List Nat → List Nat → List Nat → List Nat

/-- Error kinds of the spec's §7 taxonomy (the subset the claims need). -/
inductive ErrKind where
  | CRCMismatch
  | MissingUnpackInfo
  | MalformedHeader
  | UnsupportedMethod
  | DecoderFailure
  deriving Repr, DecidableEq

/-- Modelled from the spec: §3/§4.3 coder variants, restricted to the
linear chains the claims exercise. `copy` is the identity coder (id 00);
`aes` is the 7zAES coder (id 06 F1 07 01) carrying its raw property bytes;
`generic` is any other registered coder (LZMA, Deflate, …) carrying its id
bytes and its decode function as data. -/
inductive CoderK where
  | copy : CoderK
  | aes (rawProps : List Nat) : CoderK
  | generic (id : List Nat) (decode : List Nat → Except ErrKind (List Nat)) : CoderK

/-- Embedded from the library surface used by the tests
(`sevenzip.ReadError`): a failure value carrying an `Encrypted` flag and
the underlying error kind. -/
structure ReadErr where
  encrypted : Bool
  kind : ErrKind
  deriving Repr, DecidableEq

/-- Whether a coder chain contains the 7zAES coder. -/
def containsAES : List CoderK → Bool
  | [] => false
  | .aes _ :: _ => true
  | _ :: rest => containsAES rest

/-- Whether the folder's coder graph is exactly one Copy coder. -/
def isSingleCopy : List CoderK → Bool
  | [.copy] => true
  | _ => false

/-- Modelled from the spec: §4.4 — run a linear coder chain on the packed
input. A Copy coder is the identity; the 7zAES coder parses its
properties, derives the key from the password with the §4.5 KDF and
decrypts; a generic coder applies its decode function and propagates its
failure. -/
def decodeChain (prim : Prim) (password : String) :
    List CoderK → List Nat → Except ErrKind (List Nat)
  | [], input => .ok input
  | .copy :: rest, input => decodeChain prim password rest input
  | .aes raw :: rest, input =>
    match parseAESProps raw with
    | none => .error .MalformedHeader
    | some p =>
      decodeChain prim password rest
        (prim.aesdec
          (sevenZipKDF prim.hash p.numCyclesPower p.salt (utf16le password))
          (copyInto 16 p.iv) input)
  | .generic _ dec :: rest, input =>
    match dec input with
    | .error k => .error k
    | .ok out => decodeChain prim password rest out

/-- One named member sliced out of a folder's terminal output
(`sevenzip.File`'s name, uncompressed size and recorded CRC32; a recorded
CRC of `0` denotes "no CRC present"). -/
structure Entry where
  name : String
  size : Nat
  crc32 : Nat
  deriving Repr, DecidableEq

/-- Modelled from the spec: §3 Folder — a coder chain, the absolute byte
range of its packed stream inside the logical archive stream, and the
entries its terminal output is sliced into. -/
structure Folder where
  coders : List CoderK
  packedOffset : Nat
  packedSize : Nat
  entries : List Entry

/-- Modelled from the spec: §3 Archive — the logical archive byte stream
(the in-order concatenation of the volumes) and the folder list. -/
structure Archive where
  stream : List Nat
  folders : List Folder

/-- The packed bytes feeding a folder's coder chain. -/
def folderInput (stream : List Nat) (fo : Folder) : List Nat :=
  slice stream fo.packedOffset fo.packedSize

/-- Modelled from the spec: §4.4 — errors surfacing from a folder whose
graph contains the 7zAES coder carry `encrypted = true`
(`ReadError.Encrypted`). -/
def decodeFolder (prim : Prim) (password : String) (stream : List Nat)
    (fo : Folder) : Except ReadErr (List Nat) :=
  match decodeChain prim password fo.coders (folderInput stream fo) with
  | .error k => .error ⟨containsAES fo.coders, k⟩
  | .ok out => .ok out

/-- Start offset of substream `k` inside the folder's terminal output: the
sum of the sizes of the preceding substreams (§4.4 sequential slices). -/
def startOf (sizes : List Nat) (k : Nat) : Nat :=
  (sizes.take k).sum

/-- Substream `k` of a folder output: a sequential slice (§4.4). -/
def fileBytes (out : List Nat) (entries : List Entry) (k : Nat) : List Nat :=
  slice out (startOf (entries.map Entry.size) k) ((entries.map Entry.size).getD k 0)

/-- Modelled from the spec: §4.4/§4.6 — opening member `k` of a folder and
reading it to completion: decode the folder's packed range through its
coder chain, then slice out substream `k`. -/
def readInFolder (prim : Prim) (password : String) (stream : List Nat)
    (fo : Folder) (k : Nat) : Except ReadErr (List Nat) :=
  match decodeFolder prim password stream fo with
  | .error e => .error e
  | .ok out => .ok (fileBytes out fo.entries k)

/-! ### Section Harness: the test-suite extraction helpers -/

/-- Outcome of the test helper `extractFile`: success, the wrapped
"error extracting file" when the copy out of the reader failed, or the
test-suite sentinel `errCRCMismatch`. -/
inductive ExtractErr where
  | extractError (e : ReadErr)
  | crcMismatch
  deriving Repr, DecidableEq

/-- Embedded from `part_000` `extractFile`: copy the opened reader into the
CRC hash (here: the read result carrying the produced bytes, an error
propagating as the wrapped copy failure); accept members with
`UncompressedSize > 0 && CRC32 == 0` as having no CRC; otherwise compare
the computed CRC-32 with the recorded one (`util.CRC32Equal`, modelled as
equality of the CRC values) and fail with `errCRCMismatch` on mismatch. -/
def extractFile (r : Except ReadErr (List Nat)) (f : Entry) :
    Except ExtractErr Unit :=
  match r with
  | .error e => .error (.extractError e)
  | .ok bs =>
    if f.size > 0 && f.crc32 == 0 then .ok ()
    else if crc32 bs == f.crc32 then .ok () else .error .crcMismatch

/-- Embedded from `part_000` `extractArchive` (single-stream filter and
handle bookkeeping aside): extract every entry of every folder in order,
stopping at the first failure. -/
def extractArchive (prim : Prim) (password : String) (a : Archive) :
    Except ExtractErr Unit :=
  a.folders.forM fun fo =>
    (List.range fo.entries.length).forM fun k =>
      extractFile (readInFolder prim password a.stream fo k)
        (fo.entries.getD k ⟨"", 0, 0⟩)

/-! ### Section Listing: `ListFilesWithOffsets` -/

/-- Embedded from the library surface used by the tests and examples
(`sevenzip.FileInfo`): per-member metadata record. `aesSalt`/`aesIV` are
`Option` to model Go's nil slices. -/
structure FileInfo where
  name : String
  offset : Nat
  size : Nat
  packedSize : Nat
  folderIndex : Nat
  compressed : Bool
  encrypted : Bool
  aesSalt : Option (List Nat)
  aesIV : Option (List Nat)
  kdfIterations : Nat
  deriving Repr, DecidableEq

/-- Modelled from the spec: §4.6 — the `FileInfo` record for entry `k` of
folder `fo` (folder index `i`): absolute offset of the member's first
packed byte, `compressed` true iff the graph is anything other than a
single Copy, `encrypted` true iff the chain contains 7zAES, and for
encrypted members the crypto parameters (IV right-padded with zeroes to 16
bytes, iterations `2 ^ numCyclesPower`). -/
def mkFileInfo (i : Nat) (fo : Folder) (k : Nat) (e : Entry)
    (crypto : Option AESProps) : FileInfo :=
  { name := e.name
    offset := fo.packedOffset + startOf (fo.entries.map Entry.size) k
    size := e.size
    packedSize := fo.packedSize
    folderIndex := i
    compressed := !isSingleCopy fo.coders
    encrypted := containsAES fo.coders
    aesSalt := crypto.map AESProps.salt
    aesIV := crypto.map fun p => copyInto 16 p.iv
    kdfIterations := match crypto with
      | none => 0
      | some p => 2 ^ p.numCyclesPower }

/-- The raw properties of the first 7zAES coder of a chain, if any. -/
def findAES : List CoderK → Option (List Nat)
  | [] => none
  | .aes raw :: _ => some raw
  | _ :: rest => findAES rest

/-- Modelled from the spec: §4.6 — the `FileInfo` records of one folder.
Fails if an encrypted folder's 7zAES properties do not parse. -/
def folderFileInfos (i : Nat) (fo : Folder) : Except ErrKind (List FileInfo) :=
  match findAES fo.coders with
  | none =>
    .ok ((List.range fo.entries.length).map fun k =>
      mkFileInfo i fo k (fo.entries.getD k ⟨"", 0, 0⟩) none)
  | some raw =>
    match parseAESProps raw with
    | none => .error .MalformedHeader
    | some p =>
      .ok ((List.range fo.entries.length).map fun k =>
        mkFileInfo i fo k (fo.entries.getD k ⟨"", 0, 0⟩) (some p))

/-- Helper for `listFilesWithOffsets`: records of the folders from index
`i` on. -/
def listAux : Nat → List Folder → Except ErrKind (List FileInfo)
  | _, [] => .ok []
  | i, fo :: rest =>
    match folderFileInfos i fo with
    | .error k => .error k
    | .ok xs =>
      match listAux (i + 1) rest with
      | .error k => .error k
      | .ok ys => .ok (xs ++ ys)

/-- Modelled from the spec: §4.6 `listWithOffsets()` — concatenation of the
per-folder records, folders indexed in order. -/
def listFilesWithOffsets (a : Archive) : Except ErrKind (List FileInfo) :=
  listAux 0 a.folders

/-! ### Section Open: start-of-life of an archive (§4.2) -/

/-- Modelled from the spec: the parsed content of the end header —
presence of PackInfo and CodersInfo, and the folder list. -/
structure HeaderRec where
  hasPackInfo : Bool
  hasCodersInfo : Bool
  folders : List Folder

/-- Modelled from the spec: §4.2 step 3 — an `EncodedHeader` (0x17): the
header folder's coder chain, its packed bytes and the CRC the decoded
header bytes must match. -/
structure EncodedHeader where
  coders : List CoderK
  packed : List Nat
  crc : Nat

/-- Modelled from the spec: §4.2 — the next header is either a plain
`Header` (0x01) with its raw bytes and `nextHeaderCRC`, or an
`EncodedHeader` decoded through the coder-graph machinery. -/
inductive HeaderSource where
  | plain (bytes : List Nat) (crc : Nat)
  | encoded (eh : EncodedHeader)

/-- Modelled from the spec: §4.2/§7 — "Fails with `MissingUnpackInfo` if
CodersInfo is absent when PackInfo is present." -/
def buildArchive (stream : List Nat) (h : HeaderRec) : Except ErrKind Archive :=
  if h.hasPackInfo && !h.hasCodersInfo then .error .MissingUnpackInfo
  else .ok ⟨stream, h.folders⟩

/-- Modelled from the spec: §4.2 — open an archive given the next-header
source. A plain header is CRC-checked against `nextHeaderCRC`; an encoded
header is decoded through its folder chain and CRC-checked, any failure on
that path carrying `encrypted = containsAES` of the header folder (§7:
the `Encrypted` wrapper). The decoded bytes are then reparsed (`parse`
stands for the absent property-stream parser) and the archive model is
built, checking `MissingUnpackInfo`. -/
def openArchive (prim : Prim) (password : String) (stream : List Nat)
    (parse : List Nat → Except ErrKind HeaderRec) (src : HeaderSource) :
    Except ReadErr Archive :=
  match src with
  | .plain bytes crc =>
    if crc32 bytes == crc then
      match parse bytes with
      | .error k => .error ⟨false, k⟩
      | .ok h =>
        match buildArchive stream h with
        | .error k => .error ⟨false, k⟩
        | .ok a => .ok a
    else .error ⟨false, .CRCMismatch⟩
  | .encoded eh =>
    match decodeChain prim password eh.coders eh.packed with
    | .error k => .error ⟨containsAES eh.coders, k⟩
    | .ok bytes =>
      if crc32 bytes == eh.crc then
        match parse bytes with
        | .error k => .error ⟨false, k⟩
        | .ok h =>
          match buildArchive stream h with
          | .error k => .error ⟨false, k⟩
          | .ok a => .ok a
      else .error ⟨containsAES eh.coders, .CRCMismatch⟩

/-! ### Section Volumes: multi-volume enumeration (§6) -/

/-- Lookup of a path in a finite filesystem model (association list from
path to file contents), mirroring `os.Stat`/`os.Open`. -/
def lookupFS (fs : List (String × List Nat)) (p : String) : Option (List Nat) :=
  (fs.find? fun q => q.fst == p).map Prod.snd

/-- Zero-padded three-digit decimal rendering, as in the `%03d` volume
suffix format. -/
def pad3 (i : Nat) : String :=
  if i < 10 then "00" ++ toString i
  else if i < 100 then "0" ++ toString i
  else toString i

/-- The path of volume `i` for base path `base`, as built by
`NewDirectExtractor` in `direct_extract.go`: `fmt.Sprintf("%s.%03d", base, i)`. -/
def volName (base : String) (i : Nat) : String :=
  base ++ "." ++ pad3 i

/-- Modelled from the spec: §6 — enumerate volumes `base.001, base.002, …`
until a missing file. `fuel` bounds the walk; with fuel exceeding the
number of filesystem entries the bound is never the reason to stop. -/
def findVolumes (fs : List (String × List Nat)) (base : String) :
    Nat → Nat → List String
  | 0, _ => []
  | fuel + 1, i =>
    match lookupFS fs (volName base i) with
    | some _ => volName base i :: findVolumes fs base fuel (i + 1)
    | none => []

/-- Modelled from the spec: §6 — the opened path is a multi-volume head
when it ends with `.7z.001`, case-insensitively (the lower-cased
character sequence has `.7z.001` as a suffix). -/
def isMultiVolumePath (path : String) : Bool :=
  (".7z.001".data).isSuffixOf (path.data.map Char.toLower)

/-- Modelled from the spec: §6 — the volume paths of an opened archive:
for a `.7z.001` head, the enumeration from suffix `.001` on (the base is
the path without its last four characters); otherwise the single path. -/
def volumesOf (fs : List (String × List Nat)) (path : String) : List String :=
  if isMultiVolumePath path then
    findVolumes fs (path.dropRight 4) (fs.length + 1) 1
  else [path]

/-- Modelled from the spec: §6 — the logical archive byte stream is the
in-order concatenation of the volumes' contents. -/
def logicalStream (fs : List (String × List Nat)) (path : String) : List Nat :=
  ((volumesOf fs path).map fun p => (lookupFS fs p).getD []).flatten

/-! ### Section Sequencer: optimised shared cursor vs naive slicing (§4.4) -/

/-- Modelled from the spec: §4.4 — the optimised shared-cursor read of a
folder's members in substream order: each member takes its bytes from the
front of the remaining terminal output, advancing the cursor. -/
def optRead (out : List Nat) : List Nat → List (List Nat)
  | [] => []
  | s :: rest => out.take s :: optRead (out.drop s) rest

/-- Modelled from the spec: §4.4 — the naive per-member read: rebuild the
folder graph from the start and slice member `k` out of the full terminal
output. -/
def naiveRead (out : List Nat) (sizes : List Nat) (k : Nat) : List Nat :=
  slice out (startOf sizes k) (sizes.getD k 0)

/-! ### Witness fixtures -/

/-- Concrete primitives used by witnesses: a constant 32-byte digest and
an identity "decryption". -/
def cprim : Prim := ⟨fun _ => List.replicate 32 0, fun _ _ c => c⟩

/-- Witness fixture: a two-folder archive — a stored folder and an
identity-AES folder with a one-byte salt and a two-byte IV. -/
def c10arch : Archive :=
  ⟨[9, 9, 9, 4, 5],
    [⟨[CoderK.copy], 0, 3, [⟨"d", 3, 0⟩]⟩,
     ⟨[CoderK.aes [192, 1, 7, 8, 9]], 3, 2, [⟨"e", 2, 0⟩]⟩]⟩

/-- Witness fixture: the record `listFilesWithOffsets` produces for the
stored member of `c10arch`. -/
def c10infoStored : FileInfo :=
  ⟨"d", 0, 3, 3, 0, false, false, none, none, 0⟩

/-- Witness fixture: the record `listFilesWithOffsets` produces for the
encrypted member of `c10arch`. -/
def c10infoEnc : FileInfo :=
  ⟨"e", 3, 2, 2, 1, true, true, some [7],
   some [8, 9, 0, 0, 0, 0, 0, 0, 0, 0, 0, 0, 0, 0, 0, 0], 1⟩

/-- Witness fixture: a one-folder stored archive whose member starts at
absolute offset 1. -/
def c2arch : Archive := ⟨[9, 8, 7, 6], [⟨[CoderK.copy], 1, 3, [⟨"f", 2, 0⟩]⟩]⟩

/-- Witness fixture: the record `listFilesWithOffsets` produces for the
member of `c2arch`. -/
def c2info : FileInfo := ⟨"f", 1, 2, 3, 0, false, false, none, none, 0⟩

/-- Witness fixture: the six-volume filesystem of `multi.7z.001 .. .006`. -/
def c7fs : List (String × List Nat) :=
  [("multi.7z.001", [1]), ("multi.7z.002", [2]), ("multi.7z.003", [3]),
   ("multi.7z.004", [4]), ("multi.7z.005", [5]), ("multi.7z.006", [6])]

/-! ### Helper lemmas -/

theorem copyInto_length (n : Nat) (src : List Nat) :
    (copyInto n src).length = n := by
  simp [copyInto]
  omega

theorem copyInto_of_length_eq {n : Nat} {src : List Nat}
    (h : src.length = n) : copyInto n src = src := by
  simp [copyInto, h, List.take_of_length_le (Nat.le_of_eq h)]

theorem parseAESProps_numCyclesPower_lt {raw : List Nat} {p : AESProps}
    (h : parseAESProps raw = some p) : p.numCyclesPower < 64 := by
  match raw with
  | [] => simp [parseAESProps] at h
  | b0 :: rest =>
    simp only [parseAESProps] at h
    split at h
    · exact absurd h (by simp)
    · split at h
      · cases h; exact Nat.mod_lt _ (by omega)
      · match rest with
        | [] => simp at h
        | b1 :: rest2 =>
          simp only at h
          split at h
          · exact absurd h (by simp)
          · split at h
            · exact absurd h (by simp)
            · cases h; exact Nat.mod_lt _ (by omega)

theorem parseAESProps_salt_le {raw : List Nat} {p : AESProps}
    (h : parseAESProps raw = some p) : p.salt.length ≤ 16 := by
  match raw with
  | [] => simp [parseAESProps] at h
  | b0 :: rest =>
    simp only [parseAESProps] at h
    split at h
    · exact absurd h (by simp)
    · split at h
      · cases h; simp
      · match rest with
        | [] => simp at h
        | b1 :: rest2 =>
          simp only at h
          split at h
          · exact absurd h (by simp)
          · split at h
            · exact absurd h (by simp)
            · cases h
              have hb0 : b0 < 256 := by omega
              have hb1 : b1 < 256 := by omega
              simp only [List.length_take]
              have : b0 / 128 + b1 / 16 ≤ 16 := by omega
              omega

theorem parseAESProps_iv_le {raw : List Nat} {p : AESProps}
    (h : parseAESProps raw = some p) : p.iv.length ≤ 16 := by
  match raw with
  | [] => simp [parseAESProps] at h
  | b0 :: rest =>
    simp only [parseAESProps] at h
    split at h
    · exact absurd h (by simp)
    · split at h
      · cases h; simp
      · match rest with
        | [] => simp at h
        | b1 :: rest2 =>
          simp only at h
          split at h
          · exact absurd h (by simp)
          · split at h
            · exact absurd h (by simp)
            · cases h
              have hb0 : b0 < 256 := by omega
              have hb1 : b1 < 256 := by omega
              simp only [List.length_take]
              have : b0 / 64 % 2 + b1 % 16 ≤ 16 := by omega
              omega

theorem isSingleCopy_iff (cs : List CoderK) :
    isSingleCopy cs = true ↔ cs = [CoderK.copy] := by
  constructor
  · intro h
    match cs with
    | [] => simp [isSingleCopy] at h
    | [.copy] => rfl
    | [.aes _] => simp [isSingleCopy] at h
    | [.generic _ _] => simp [isSingleCopy] at h
    | _ :: _ :: _ => simp [isSingleCopy] at h
  · intro h; subst h; rfl

theorem findAES_none_iff (cs : List CoderK) :
    findAES cs = none ↔ containsAES cs = false := by
  induction cs with
  | nil => simp [findAES, containsAES]
  | cons c rest ih =>
    cases c with
    | copy => simpa [findAES, containsAES] using ih
    | aes raw => simp [findAES, containsAES]
    | generic id dec => simpa [findAES, containsAES] using ih

theorem slice_slice (l : List Nat) (a b c d : Nat) (h : c + d ≤ b) :
    slice (slice l a b) c d = slice l (a + c) d := by
  simp only [slice]
  rw [List.drop_take, List.drop_drop, List.take_take]
  congr 1
  omega

theorem startOf_cons_succ (s : Nat) (rest : List Nat) (k : Nat) :
    startOf (s :: rest) (k + 1) = s + startOf rest k := by
  simp [startOf, List.take_succ_cons]

/-! ### Claims -/

/-- C3. The 7z password-to-key derivation of `deriveAESKey`
(`direct_extract.go`) computes exactly the specified algorithm: with the
password encoded UTF-16LE without BOM, `numCyclesPower = 0x3F` (carried as
`KDFIterations = 0`, the encoding `deriveAESKey`'s no-hash special case
documents) yields the first 32 bytes of `salt ++ utf16le password`
right-padded with zeroes; otherwise the key is the SHA-256 digest of
`salt ++ utf16le password ++ counter_le64` over
`counter = 0 .. 2 ^ numCyclesPower - 1`, all rounds fed into a single hash
state, truncated to 32 bytes. `hash` is the digest function of that single
state; SHA-256 digests are 32 bytes long. -/
theorem deriveAESKey_eq_spec_kdf (hash : List Nat → List Nat)
    (hlen : ∀ x, (hash x).length = 32) (numCyclesPower : Nat)
    (salt : List Nat) (password : String) :
    deriveAESKey hash (kdfIterationsOf numCyclesPower) salt password =
      sevenZipKDF hash numCyclesPower salt (utf16le password) := by
  by_cases hp : numCyclesPower = 0x3F
  · subst hp
    simp [deriveAESKey, kdfIterationsOf, sevenZipKDF]
  · have h2 : (2 : Nat) ^ numCyclesPower ≠ 0 := Nat.pos_iff_ne_zero.mp (Nat.pos_pow_of_pos _ (by omega))
    simp only [deriveAESKey, kdfIterationsOf, sevenZipKDF, beq_iff_eq, hp,
      if_false, if_neg h2, h2]
    have hl := hlen (kdfFeed (2 ^ numCyclesPower) (salt ++ utf16le password))
    rw [copyInto_of_length_eq hl, List.take_of_length_le (Nat.le_of_eq hl)]

/-- Witness for C3 at `numCyclesPower = 2`, a constant 32-byte digest
function, salt `[1]` and password `"a"`. -/
theorem deriveAESKey_eq_spec_kdf_witness :
    (∀ x, ((fun _ : List Nat => List.replicate 32 0) x).length = 32) ∧
      deriveAESKey (fun _ : List Nat => List.replicate 32 0)
          (kdfIterationsOf 2) [1] "a" =
        sevenZipKDF (fun _ : List Nat => List.replicate 32 0) 2 [1]
          (utf16le "a") :=
  ⟨fun _ => by simp,
   deriveAESKey_eq_spec_kdf _ (fun _ => by simp) 2 [1] "a"⟩

/-- C9. A zero recorded CRC32 on a positive-size member is treated as "no
CRC present": `extractFile` (`part_000`) accepts any produced byte
sequence without raising a CRC verification failure. -/
theorem zero_crc_positive_size_accepted (bs : List Nat) (f : Entry)
    (hsize : 0 < f.size) (hcrc : f.crc32 = 0) :
    extractFile (.ok bs) f = .ok () := by
  simp [extractFile, hsize, hcrc]

/-- Witness for C9: a 3-byte member of recorded CRC 0 whose bytes have a
nonzero CRC-32 is accepted. -/
theorem zero_crc_positive_size_accepted_witness :
    0 < (Entry.mk "member" 3 0).size ∧ (Entry.mk "member" 3 0).crc32 = 0 ∧
      extractFile (.ok [5, 6, 7]) (Entry.mk "member" 3 0) = .ok () :=
  ⟨by decide, rfl, zero_crc_positive_size_accepted [5, 6, 7] _ (by decide) rfl⟩

/-- C1. For every file with a recorded CRC (nonzero `crc32` field, per the
zero-means-absent convention of C9), opening it and reading it to
completion yields bytes whose CRC-32 equals the recorded CRC, and the
test-suite's `extractFile` check accepts them. `hvalid` states the §3
archive invariant that recorded CRCs equal the CRC-32 of the produced
substream bytes. -/
theorem crc_of_completed_read (prim : Prim) (password : String)
    (stream : List Nat) (fo : Folder) (k : Nat) (out bs : List Nat)
    (hdec : decodeFolder prim password stream fo = .ok out)
    (hvalid : ∀ j, j < fo.entries.length →
      (fo.entries.getD j ⟨"", 0, 0⟩).crc32 ≠ 0 →
      crc32 (fileBytes out fo.entries j) = (fo.entries.getD j ⟨"", 0, 0⟩).crc32)
    (hk : k < fo.entries.length)
    (hcrc : (fo.entries.getD k ⟨"", 0, 0⟩).crc32 ≠ 0)
    (hread : readInFolder prim password stream fo k = .ok bs) :
    crc32 bs = (fo.entries.getD k ⟨"", 0, 0⟩).crc32 ∧
      extractFile (.ok bs) (fo.entries.getD k ⟨"", 0, 0⟩) = .ok () := by
  have hbs : bs = fileBytes out fo.entries k := by
    simp only [readInFolder, hdec] at hread
    exact (Except.ok.injEq _ _ ▸ hread).symm
  subst hbs
  have h1 := hvalid k hk hcrc
  refine ⟨h1, ?_⟩
  simp [extractFile, hcrc, h1]

/-- Witness for C1: a one-member Copy folder over stream `[5, 6, 7]` whose
recorded CRC is the CRC-32 of its bytes. -/
theorem crc_of_completed_read_witness :
    crc32 [5, 6, 7] = (Entry.mk "f" 3 (crc32 [5, 6, 7])).crc32 ∧
      extractFile (.ok [5, 6, 7]) (Entry.mk "f" 3 (crc32 [5, 6, 7])) = .ok () := by
  have h := crc_of_completed_read cprim "" [5, 6, 7]
    ⟨[CoderK.copy], 0, 3, [⟨"f", 3, crc32 [5, 6, 7]⟩]⟩ 0 [5, 6, 7] [5, 6, 7]
    rfl (by decide) (by decide) (by decide) rfl
  exact h

/-- Equality of the shared-cursor reads with the per-member slices of the
terminal output, for every member position. -/
theorem optRead_eq_map_naive (out : List Nat) (sizes : List Nat) :
    optRead out sizes = (List.range sizes.length).map (naiveRead out sizes) := by
  induction sizes generalizing out with
  | nil => simp [optRead]
  | cons s rest ih =>
    have hmap : ∀ j, naiveRead out (s :: rest) (j + 1) = naiveRead (out.drop s) rest j := by
      intro j
      simp [naiveRead, slice, startOf_cons_succ, List.drop_drop]
    have hhead : naiveRead out (s :: rest) 0 = out.take s := by
      simp [naiveRead, slice, startOf]
    simp only [optRead, List.length_cons, List.range_succ_eq_map, List.map_cons,
      List.map_map, Function.comp_def, Nat.succ_eq_add_one]
    rw [hhead, ih]
    congr 1
    exact (List.map_congr_left fun j _ => hmap j).symm

/-- C6. Reading the members of a folder in substream order through the
optimised shared-cursor cache produces exactly the bytes of the naive path
that rebuilds a fresh folder graph per member (`readInFolder`): the naive
path is a correct fallback. -/
theorem optimised_cursor_eq_naive (prim : Prim) (password : String)
    (stream : List Nat) (fo : Folder) (out : List Nat)
    (hdec : decodeFolder prim password stream fo = .ok out) (k : Nat)
    (hk : k < fo.entries.length) :
    readInFolder prim password stream fo k =
      .ok ((optRead out (fo.entries.map Entry.size)).getD k []) := by
  have h1 : readInFolder prim password stream fo k = .ok (fileBytes out fo.entries k) := by
    simp [readInFolder, hdec]
  rw [h1]
  congr 1
  rw [optRead_eq_map_naive]
  have hk2 : k < (fo.entries.map Entry.size).length := by simpa using hk
  simp only [List.getD_eq_getElem?_getD, List.getElem?_map, List.getElem?_range, hk2,
    if_pos]
  rfl

/-- Witness for C6: a two-member Copy folder; the second member's
optimised-cursor bytes equal its naive read. -/
theorem optimised_cursor_eq_naive_witness :
    readInFolder cprim "" [1, 2, 3, 4, 5]
        ⟨[CoderK.copy], 0, 5, [⟨"a", 2, 0⟩, ⟨"b", 3, 0⟩]⟩ 1 =
      .ok ((optRead [1, 2, 3, 4, 5]
        ((⟨[CoderK.copy], 0, 5, [⟨"a", 2, 0⟩, ⟨"b", 3, 0⟩]⟩ : Folder).entries.map
          Entry.size)).getD 1 []) :=
  optimised_cursor_eq_naive cprim "" [1, 2, 3, 4, 5]
    ⟨[CoderK.copy], 0, 5, [⟨"a", 2, 0⟩, ⟨"b", 3, 0⟩]⟩ [1, 2, 3, 4, 5] rfl 1
    (by decide)

/-- C4. Opening an archive whose headers are encrypted with a wrong
password fails at open time with an error whose `encrypted` flag is true:
whatever the header folder's chain produces under that password — an
outright decode failure, or bytes that do not match the recorded header
CRC — the resulting `ReadErr` carries `encrypted = true`. -/
theorem wrong_password_encrypted_header_open_fails (prim : Prim)
    (password : String) (stream : List Nat)
    (parse : List Nat → Except ErrKind HeaderRec) (eh : EncodedHeader)
    (henc : containsAES eh.coders = true)
    (hbad : ∀ g, decodeChain prim password eh.coders eh.packed = .ok g →
      crc32 g ≠ eh.crc) :
    ∃ e, openArchive prim password stream parse (.encoded eh) = .error e ∧
      e.encrypted = true := by
  cases hdec : decodeChain prim password eh.coders eh.packed with
  | error k =>
    refine ⟨⟨containsAES eh.coders, k⟩, ?_, henc⟩
    simp [openArchive, hdec]
  | ok g =>
    have hne := hbad g hdec
    refine ⟨⟨containsAES eh.coders, .CRCMismatch⟩, ?_, henc⟩
    simp [openArchive, hdec, hne]

/-- Witness for C4: an identity-AES header folder whose decoded bytes miss
the recorded CRC by one. -/
theorem wrong_password_encrypted_header_open_fails_witness :
    ∃ e, openArchive cprim "notpassword" []
        (fun _ => .error ErrKind.MalformedHeader)
        (.encoded ⟨[CoderK.aes [0]], [1, 2, 3], crc32 [1, 2, 3] + 1⟩) = .error e ∧
      e.encrypted = true :=
  wrong_password_encrypted_header_open_fails cprim "notpassword" []
    (fun _ => .error ErrKind.MalformedHeader)
    ⟨[CoderK.aes [0]], [1, 2, 3], crc32 [1, 2, 3] + 1⟩ rfl
    (fun g hg => by
      rw [show decodeChain cprim "notpassword" [CoderK.aes [0]] [1, 2, 3] =
        Except.ok [1, 2, 3] from rfl] at hg
      injection hg with hg2
      subst hg2
      show crc32 [1, 2, 3] ≠ crc32 [1, 2, 3] + 1
      omega)

/-- C8. Opening an archive whose metadata has PackInfo but no CodersInfo
fails with `MissingUnpackInfo` — not with success and not with a different
error kind. -/
theorem open_missing_unpack_info (prim : Prim) (password : String)
    (stream : List Nat) (parse : List Nat → Except ErrKind HeaderRec)
    (bytes : List Nat) (crc : Nat) (h : HeaderRec)
    (hcrc : crc32 bytes = crc) (hparse : parse bytes = .ok h)
    (hpack : h.hasPackInfo = true) (hcoders : h.hasCodersInfo = false) :
    openArchive prim password stream parse (.plain bytes crc) =
      .error ⟨false, .MissingUnpackInfo⟩ := by
  simp [openArchive, hcrc, hparse, buildArchive, hpack, hcoders]

/-- Witness for C8: a plain header carrying PackInfo and no CodersInfo. -/
theorem open_missing_unpack_info_witness :
    openArchive cprim "" [] (fun _ => .ok ⟨true, false, []⟩)
        (.plain [9] (crc32 [9])) =
      .error ⟨false, .MissingUnpackInfo⟩ :=
  open_missing_unpack_info cprim "" [] (fun _ => .ok ⟨true, false, []⟩) [9]
    (crc32 [9]) ⟨true, false, []⟩ rfl rfl rfl rfl

/-- C5. Wrong password on an archive with unencrypted headers and
encrypted streams: the open succeeds (part 1); reading a member of a
compressed encrypted folder fails with an error whose `encrypted` flag is
true, surfacing the downstream coder's failure on the garbage plaintext
(part 2); reading a member of a stored (single 7zAES coder) folder
succeeds with garbage bytes, and the CRC comparison of `extractFile`
fails with the `errCRCMismatch` sentinel (part 3). -/
theorem wrong_password_unencrypted_header (prim : Prim) (password : String)
    (stream : List Nat) (parse : List Nat → Except ErrKind HeaderRec)
    (bytes : List Nat) (crc : Nat) (h : HeaderRec)
    (hcrc : crc32 bytes = crc) (hparse : parse bytes = .ok h)
    (hcoders : h.hasCodersInfo = true) :
    openArchive prim password stream parse (.plain bytes crc) =
        .ok ⟨stream, h.folders⟩ ∧
      (∀ fo raw p gid dec k kk, fo.coders = [CoderK.aes raw, CoderK.generic gid dec] →
        parseAESProps raw = some p →
        dec (prim.aesdec
          (sevenZipKDF prim.hash p.numCyclesPower p.salt (utf16le password))
          (copyInto 16 p.iv) (folderInput stream fo)) = .error kk →
        readInFolder prim password stream fo k = .error ⟨true, kk⟩) ∧
      (∀ fo raw p k e, fo.coders = [CoderK.aes raw] →
        parseAESProps raw = some p →
        fo.entries.getD k ⟨"", 0, 0⟩ = e → e.crc32 ≠ 0 →
        crc32 (fileBytes
          (prim.aesdec
            (sevenZipKDF prim.hash p.numCyclesPower p.salt (utf16le password))
            (copyInto 16 p.iv) (folderInput stream fo)) fo.entries k) ≠ e.crc32 →
        extractFile (readInFolder prim password stream fo k) e =
          .error .crcMismatch) := by
  refine ⟨?_, ?_, ?_⟩
  · simp [openArchive, hcrc, hparse, buildArchive, hcoders]
  · intro fo raw p gid dec k kk hfo hp hdec
    simp [readInFolder, decodeFolder, decodeChain, hfo, hp, hdec, containsAES]
  · intro fo raw p k e hfo hp hent hcrcne hmis
    have hread : readInFolder prim password stream fo k =
        .ok (fileBytes
          (prim.aesdec
            (sevenZipKDF prim.hash p.numCyclesPower p.salt (utf16le password))
            (copyInto 16 p.iv) (folderInput stream fo)) fo.entries k) := by
      simp [readInFolder, decodeFolder, decodeChain, hfo, hp]
    rw [hread]
    simp [extractFile, hcrcne, hmis]

/-- Witness for C5: an identity-AES stored folder over stream `[1, 2]`
whose single member records a CRC different from the garbage bytes, and a
compressed folder whose downstream coder rejects its input. -/
theorem wrong_password_unencrypted_header_witness :
    openArchive cprim "notpassword" [1, 2] (fun _ => .ok ⟨true, true, []⟩)
        (.plain [7] (crc32 [7])) = .ok ⟨[1, 2], []⟩ ∧
      readInFolder cprim "notpassword" [1, 2]
        ⟨[CoderK.aes [0], CoderK.generic [3, 1, 1] fun _ => .error .DecoderFailure],
          0, 2, [⟨"x", 2, 1⟩]⟩ 0 = .error ⟨true, .DecoderFailure⟩ ∧
      extractFile (readInFolder cprim "notpassword" [1, 2]
          ⟨[CoderK.aes [0]], 0, 2, [⟨"x", 2, 1⟩]⟩ 0) ⟨"x", 2, 1⟩ =
        .error .crcMismatch := by
  obtain ⟨h1, h2, h3⟩ := wrong_password_unencrypted_header cprim "notpassword"
    [1, 2] (fun _ => .ok ⟨true, true, []⟩) [7] (crc32 [7]) ⟨true, true, []⟩ rfl
    rfl rfl
  refine ⟨h1, ?_, ?_⟩
  · exact h2 ⟨[CoderK.aes [0], CoderK.generic [3, 1, 1] fun _ => .error .DecoderFailure],
      0, 2, [⟨"x", 2, 1⟩]⟩ [0] ⟨0, [], []⟩ [3, 1, 1]
      (fun _ => .error .DecoderFailure) 0 .DecoderFailure rfl (by decide) rfl
  · exact h3 ⟨[CoderK.aes [0]], 0, 2, [⟨"x", 2, 1⟩]⟩ [0] ⟨0, [], []⟩ 0 ⟨"x", 2, 1⟩
      rfl (by decide) rfl (by decide) (by decide)

theorem findAES_some_containsAES {cs : List CoderK} {raw : List Nat}
    (h : findAES cs = some raw) : containsAES cs = true := by
  cases hc : containsAES cs with
  | true => rfl
  | false => rw [(findAES_none_iff cs).mpr hc] at h; exact absurd h (by simp)

/-- Every record produced for one folder is `mkFileInfo` at some member
position, with the crypto argument tied to the folder's 7zAES coder. -/
theorem mem_folderFileInfos {i : Nat} {fo : Folder} {xs : List FileInfo}
    {info : FileInfo} (hxs : folderFileInfos i fo = .ok xs) (hm : info ∈ xs) :
    ∃ k, k < fo.entries.length ∧
      ((containsAES fo.coders = false ∧
          info = mkFileInfo i fo k (fo.entries.getD k ⟨"", 0, 0⟩) none) ∨
        (∃ raw p, findAES fo.coders = some raw ∧ parseAESProps raw = some p ∧
          info = mkFileInfo i fo k (fo.entries.getD k ⟨"", 0, 0⟩) (some p))) := by
  unfold folderFileInfos at hxs
  split at hxs
  next hfa =>
    have hxs2 : xs = (List.range fo.entries.length).map fun k =>
        mkFileInfo i fo k (fo.entries.getD k ⟨"", 0, 0⟩) none := by
      injection hxs with h2
      exact h2.symm
    subst hxs2
    obtain ⟨k, hk, rfl⟩ := List.mem_map.mp hm
    exact ⟨k, List.mem_range.mp hk,
      Or.inl ⟨(findAES_none_iff fo.coders).mp hfa, rfl⟩⟩
  next raw hfa =>
    split at hxs
    next hp => exact absurd hxs (by simp)
    next p hp =>
      have hxs2 : xs = (List.range fo.entries.length).map fun k =>
          mkFileInfo i fo k (fo.entries.getD k ⟨"", 0, 0⟩) (some p) := by
        injection hxs with h2
        exact h2.symm
      subst hxs2
      obtain ⟨k, hk, rfl⟩ := List.mem_map.mp hm
      exact ⟨k, List.mem_range.mp hk, Or.inr ⟨raw, p, hfa, hp, rfl⟩⟩

/-- Every record of the full listing comes from some folder's records. -/
theorem mem_listAux {info : FileInfo} : ∀ {fos : List Folder} {i : Nat}
    {infos : List FileInfo}, listAux i fos = .ok infos → info ∈ infos →
    ∃ j fo xs, fos[j]? = some fo ∧ folderFileInfos (i + j) fo = .ok xs ∧
      info ∈ xs := by
  intro fos
  induction fos with
  | nil =>
    intro i infos h hm
    have : infos = [] := by
      unfold listAux at h
      injection h with h2
      exact h2.symm
    subst this
    exact absurd hm (by simp)
  | cons fo rest ih =>
    intro i infos h hm
    unfold listAux at h
    split at h
    next k h1 => exact absurd h (by simp)
    next xs h1 =>
      split at h
      next k h2 => exact absurd h (by simp)
      next ys h2 =>
        have hinfos : infos = xs ++ ys := by
          injection h with h3
          exact h3.symm
        subst hinfos
        rcases List.mem_append.mp hm with hx | hy
        · exact ⟨0, fo, xs, by simp, by simpa using h1, hx⟩
        · obtain ⟨j, fo2, xs2, hj, hff, hmem⟩ := ih h2 hy
          refine ⟨j + 1, fo2, xs2, by simpa using hj, ?_, hmem⟩
          have heq : i + (j + 1) = i + 1 + j := by omega
          rw [heq]
          exact hff

/-- C10. Invariants of the records returned by `ListFilesWithOffsets`: an
encrypted member carries a 16-byte AES IV (right-padded with zeroes),
strictly positive KDF iterations and a salt of at most 16 bytes when
present; a non-encrypted member carries no IV, zero KDF iterations and no
(or an empty) salt. -/
theorem fileinfo_crypto_invariants (a : Archive) (infos : List FileInfo)
    (hl : listFilesWithOffsets a = .ok infos) (info : FileInfo)
    (hm : info ∈ infos) :
    (info.encrypted = true →
      (∃ iv, info.aesIV = some iv ∧ iv.length = 16) ∧
        0 < info.kdfIterations ∧
        (∀ s, info.aesSalt = some s → s.length ≤ 16)) ∧
      (info.encrypted = false →
        info.aesIV = none ∧ info.kdfIterations = 0 ∧
          (info.aesSalt = none ∨ info.aesSalt = some [])) := by
  obtain ⟨j, fo, xs, hj, hff, hmx⟩ := mem_listAux hl hm
  obtain ⟨k, hk, hcase⟩ := mem_folderFileInfos hff hmx
  rcases hcase with ⟨hno, rfl⟩ | ⟨raw, p, hraw, hp, rfl⟩
  · constructor
    · intro he
      rw [show (mkFileInfo (0 + j) fo k (fo.entries.getD k ⟨"", 0, 0⟩)
        none).encrypted = containsAES fo.coders from rfl, hno] at he
      exact absurd he (by simp)
    · intro _
      refine ⟨rfl, rfl, Or.inl rfl⟩
  · have henc := findAES_some_containsAES hraw
    constructor
    · intro _
      refine ⟨⟨copyInto 16 p.iv, rfl, copyInto_length _ _⟩, ?_, ?_⟩
      · exact Nat.pos_pow_of_pos _ (by omega)
      · intro s hs
        have : s = p.salt := by
          simpa [mkFileInfo] using hs.symm
        subst this
        exact parseAESProps_salt_le hp
    · intro hfe
      rw [show (mkFileInfo (0 + j) fo k (fo.entries.getD k ⟨"", 0, 0⟩)
        (some p)).encrypted = containsAES fo.coders from rfl, henc] at hfe
      exact absurd hfe (by simp)

/-- Witness for C10 at the encrypted member of `c10arch`. -/
theorem fileinfo_crypto_invariants_witness :
    (c10infoEnc.encrypted = true →
      (∃ iv, c10infoEnc.aesIV = some iv ∧ iv.length = 16) ∧
        0 < c10infoEnc.kdfIterations ∧
        (∀ s, c10infoEnc.aesSalt = some s → s.length ≤ 16)) ∧
      (c10infoEnc.encrypted = false →
        c10infoEnc.aesIV = none ∧ c10infoEnc.kdfIterations = 0 ∧
          (c10infoEnc.aesSalt = none ∨ c10infoEnc.aesSalt = some [])) :=
  fileinfo_crypto_invariants c10arch [c10infoStored, c10infoEnc] rfl
    c10infoEnc (List.mem_cons.mpr (Or.inr (List.mem_cons.mpr (Or.inl rfl))))

theorem getD_map_size {entries : List Entry} {k : Nat}
    (hk : k < entries.length) :
    (entries.map Entry.size).getD k 0 = (entries.getD k ⟨"", 0, 0⟩).size := by
  rw [List.getD_eq_getElem?_getD, List.getD_eq_getElem?_getD, List.getElem?_map,
    List.getElem?_eq_getElem hk]
  rfl

/-- Shared shape of C2 for one listing record: the `compressed` flag is
false exactly for a single-Copy folder, and then the member's bytes under
`File.Open` are the `size`-byte slice of the archive stream at the
reported absolute `offset`. -/
theorem mkFileInfo_stored_props (i : Nat) (fo : Folder) (k : Nat)
    (c : Option AESProps) (stream : List Nat) (hk : k < fo.entries.length) :
    ((mkFileInfo i fo k (fo.entries.getD k ⟨"", 0, 0⟩) c).compressed = false ↔
      fo.coders = [CoderK.copy]) ∧
    ((mkFileInfo i fo k (fo.entries.getD k ⟨"", 0, 0⟩) c).compressed = false →
      startOf (fo.entries.map Entry.size) k +
        (mkFileInfo i fo k (fo.entries.getD k ⟨"", 0, 0⟩) c).size ≤
          fo.packedSize →
      ∀ prim password, readInFolder prim password stream fo k =
        .ok (slice stream
          (mkFileInfo i fo k (fo.entries.getD k ⟨"", 0, 0⟩) c).offset
          (mkFileInfo i fo k (fo.entries.getD k ⟨"", 0, 0⟩) c).size)) := by
  have hciff : (mkFileInfo i fo k (fo.entries.getD k ⟨"", 0, 0⟩) c).compressed
      = false ↔ fo.coders = [CoderK.copy] := by
    rw [show (mkFileInfo i fo k (fo.entries.getD k ⟨"", 0, 0⟩) c).compressed =
      !isSingleCopy fo.coders from rfl]
    rw [← isSingleCopy_iff]
    cases isSingleCopy fo.coders <;> simp
  refine ⟨hciff, fun hcomp hbound prim password => ?_⟩
  have hco := hciff.mp hcomp
  have hread : readInFolder prim password stream fo k =
      .ok (fileBytes (folderInput stream fo) fo.entries k) := by
    simp [readInFolder, decodeFolder, decodeChain, hco]
  rw [hread]
  congr 1
  have hsz : (fo.entries.map Entry.size).getD k 0 =
      (fo.entries.getD k ⟨"", 0, 0⟩).size := getD_map_size hk
  rw [show (mkFileInfo i fo k (fo.entries.getD k ⟨"", 0, 0⟩) c).offset =
    fo.packedOffset + startOf (fo.entries.map Entry.size) k from rfl,
    show (mkFileInfo i fo k (fo.entries.getD k ⟨"", 0, 0⟩) c).size =
    (fo.entries.getD k ⟨"", 0, 0⟩).size from rfl]
  rw [fileBytes, folderInput, hsz]
  exact slice_slice stream fo.packedOffset fo.packedSize _ _ hbound

/-- C2. For every record of `ListFilesWithOffsets`: `compressed = false`
iff the member's folder coder graph is exactly one Copy coder; and for a
stored, non-encrypted member, reading `size` bytes of the raw archive
stream at the reported absolute `offset` yields exactly the bytes of
`File.Open` (hence the same CRC-32). `hbound` is the §3 invariant that the
substreams fit inside the folder's packed range. -/
theorem stored_member_direct_offset (a : Archive) (infos : List FileInfo)
    (hl : listFilesWithOffsets a = .ok infos) (info : FileInfo)
    (hm : info ∈ infos) :
    ∃ i fo k, a.folders[i]? = some fo ∧ info.folderIndex = i ∧
      k < fo.entries.length ∧
      (info.compressed = false ↔ fo.coders = [CoderK.copy]) ∧
      (info.compressed = false → info.encrypted = false →
        startOf (fo.entries.map Entry.size) k + info.size ≤ fo.packedSize →
        ∀ prim password, readInFolder prim password a.stream fo k =
          .ok (slice a.stream info.offset info.size)) := by
  obtain ⟨j, fo, xs, hj, hff, hmx⟩ := mem_listAux hl hm
  obtain ⟨k, hk, hcase⟩ := mem_folderFileInfos hff hmx
  rcases hcase with ⟨_, rfl⟩ | ⟨raw, p, _, _, rfl⟩
  · obtain ⟨h1, h2⟩ := mkFileInfo_stored_props (0 + j) fo k none a.stream hk
    exact ⟨0 + j, fo, k, by simpa using hj, rfl, hk, h1, fun hc _ hb => h2 hc hb⟩
  · obtain ⟨h1, h2⟩ := mkFileInfo_stored_props (0 + j) fo k (some p) a.stream hk
    exact ⟨0 + j, fo, k, by simpa using hj, rfl, hk, h1, fun hc _ hb => h2 hc hb⟩

/-- Witness for C2 at the stored member of `c2arch`. -/
theorem stored_member_direct_offset_witness :
    ∃ i fo k, c2arch.folders[i]? = some fo ∧ c2info.folderIndex = i ∧
      k < fo.entries.length ∧
      (c2info.compressed = false ↔ fo.coders = [CoderK.copy]) ∧
      (c2info.compressed = false → c2info.encrypted = false →
        startOf (fo.entries.map Entry.size) k + c2info.size ≤ fo.packedSize →
        ∀ prim password, readInFolder prim password c2arch.stream fo k =
          .ok (slice c2arch.stream c2info.offset c2info.size)) :=
  stored_member_direct_offset c2arch [c2info] rfl c2info
    (List.mem_cons.mpr (Or.inl rfl))

/-- Characterisation of the volume walk: if the first `k` candidate names
from index `i` are present and the next one is missing, the walk returns
exactly those `k` names in order (given enough fuel). -/
theorem findVolumes_eq (fs : List (String × List Nat)) (base : String) :
    ∀ (k i fuel : Nat), k < fuel →
    (∀ j, j < k → (lookupFS fs (volName base (i + j))).isSome = true) →
    lookupFS fs (volName base (i + k)) = none →
    findVolumes fs base fuel i =
      (List.range k).map fun j => volName base (i + j) := by
  intro k
  induction k with
  | zero =>
    intro i fuel hf _ hmiss
    match fuel, hf with
    | fuel + 1, _ =>
      rw [show i + 0 = i from rfl] at hmiss
      simp [findVolumes, hmiss]
  | succ k ih =>
    intro i fuel hf hpres hmiss
    match fuel, hf with
    | fuel + 1, hf =>
      have h0 : (lookupFS fs (volName base i)).isSome = true := by
        have := hpres 0 (by omega)
        rwa [show i + 0 = i from rfl] at this
      obtain ⟨v, hv⟩ := Option.isSome_iff_exists.mp h0
      have hrest : findVolumes fs base fuel (i + 1) =
          (List.range k).map fun j => volName base (i + 1 + j) := by
        refine ih (i + 1) fuel (by omega) (fun j hj => ?_) ?_
        · have := hpres (j + 1) (by omega)
          rwa [show i + (j + 1) = i + 1 + j by omega] at this
        · rwa [show i + 1 + k = i + (k + 1) by omega]
      simp only [findVolumes, hv, hrest, List.range_succ_eq_map, List.map_cons,
        List.map_map, Function.comp_def, Nat.succ_eq_add_one]
      rw [show i + 0 = i from rfl]
      congr 1
      exact (List.map_congr_left fun j _ => by
        rw [show i + (j + 1) = i + 1 + j by omega]).symm

/-- C7. When the opened path ends with `.7z.001` (case-insensitively) and
volumes `.001 .. .006` exist while `.007` does not, the volume source
enumerates exactly those six paths in order, and the logical archive byte
stream is the in-order concatenation of their contents. -/
theorem multi_volume_enumeration (fs : List (String × List Nat)) (path : String)
    (hmulti : isMultiVolumePath path = true)
    (hlen : 6 ≤ fs.length)
    (hpresent : ∀ j, j < 6 →
      (lookupFS fs (volName (path.dropRight 4) (1 + j))).isSome = true)
    (hmissing : lookupFS fs (volName (path.dropRight 4) 7) = none) :
    volumesOf fs path =
      (List.range 6).map (fun j => volName (path.dropRight 4) (1 + j)) ∧
    logicalStream fs path =
      ((List.range 6).map fun j =>
        (lookupFS fs (volName (path.dropRight 4) (1 + j))).getD []).flatten := by
  have hvols : volumesOf fs path =
      (List.range 6).map fun j => volName (path.dropRight 4) (1 + j) := by
    unfold volumesOf
    rw [hmulti, if_pos rfl]
    exact findVolumes_eq fs (path.dropRight 4) 6 1 (fs.length + 1) (by omega)
      (fun j hj => hpresent j hj) (by rwa [show (1 : Nat) + 6 = 7 from rfl])
  refine ⟨hvols, ?_⟩
  unfold logicalStream
  rw [hvols, List.map_map]
  rfl

/-- Witness for C7: the six volumes are enumerated in order and the
logical stream is their concatenation. -/
theorem multi_volume_enumeration_witness :
    volumesOf c7fs "multi.7z.001" =
      (List.range 6).map (fun j => volName ("multi.7z.001".dropRight 4) (1 + j)) ∧
    logicalStream c7fs "multi.7z.001" =
      ((List.range 6).map fun j =>
        (lookupFS c7fs (volName ("multi.7z.001".dropRight 4) (1 + j))).getD []).flatten :=
  multi_volume_enumeration c7fs "multi.7z.001" (by decide) (by decide)
    (by decide) (by decide)

end SevenZip
